import Mathlib

/-!
Verification of the watch-party synchronization server
(nooks-fullstack-takehome).

The definitions below are a shallow embedding of the TypeScript source:

  * server/src/index.ts   — compareHLC, mergeState, the CRDT_UPDATE case,
                            scheduleBroadcast / broadcast (coalescer),
                            CREATE_SESSION case, the close-handler cleanup,
                            and the minimal runtime check on inbound frames;
  * src/routes/WatchSession.tsx — the snapshot and broadcast handlers
                            (elapsed-wall-clock position adjustment);
  * src/components/VideoPlayer.tsx — the remote-update effect
                            (seek threshold and network-delay adjustment).

JavaScript numbers holding timestamps and counters are modelled as Int
(they are integral in the program); playback positions are modelled as Rat.
String.prototype.localeCompare is modelled as lexicographic comparison by
code points, returning the sign as -1 / 0 / 1.
-/

/-- Hybrid logical clock, from server/src/types.ts: physical time p,
logical counter l, client id c. -/
structure HLC where
  p : Int
  l : Int
  c : String
deriving DecidableEq

/-- Playhead state, from server/src/types.ts: timestamp, position in
seconds, playing flag, optional media url. -/
structure PlayheadState where
  ts : HLC
  pos : Rat
  playing : Bool
  url : Option String
deriving DecidableEq

/-- Model of a.localeCompare(b): the sign of lexicographic string
comparison. -/
def localeCompare (a b : String) : Int :=
  if a < b then -1 else if a = b then 0 else 1

/-- compareHLC from server/src/index.ts: physical time first, then the
logical counter, then the client id. Note the result is a difference of
numbers, not a normalized sign. -/
def compareHLC (a b : HLC) : Int :=
  if a.p ≠ b.p then a.p - b.p
  else if a.l ≠ b.l then a.l - b.l
  else localeCompare a.c b.c

/-- mergeState from server/src/index.ts: last-writer-wins on the HLC;
the incoming update replaces the current state only when its timestamp
is strictly greater. -/
def mergeState (current : Option PlayheadState) (update : PlayheadState) :
    PlayheadState :=
  match current with
  | none => update
  | some cur => if 0 < compareHLC update.ts cur.ts then update else cur

/-- The strict order on HLC values described by the spec (section 4.1):
larger physical time wins, then larger logical counter, then the
lexicographically larger client id. hlcLt a b says b is the greater. -/
def hlcLt (a b : HLC) : Prop :=
  a.p < b.p ∨ (a.p = b.p ∧ (a.l < b.l ∨ (a.l = b.l ∧ a.c < b.c)))

/-- Reflexive closure of hlcLt. -/
def hlcLe (a b : HLC) : Prop := hlcLt a b ∨ a = b

/-- The CRDT_UPDATE case of the message handler (server/src/index.ts):
merge the incoming state with the stored one; when the merged value is a
new reference (modelled here as value inequality, which coincides with
the reference check because a winning update always has a distinct
timestamp), store it and hand it to scheduleBroadcast. Returns the
stored state after the call and the payload given to scheduleBroadcast,
if any. -/
def crdtUpdate (cur : Option PlayheadState) (u : PlayheadState) :
    Option PlayheadState × Option PlayheadState :=
  let next := mergeState cur u
  match cur with
  | none => (some next, some next)
  | some c => if next = c then (some c, none) else (some next, some next)

/-- Stored states along a sequence of CRDT_UPDATE calls on one session. -/
def runUpdates (cur : Option PlayheadState) (us : List PlayheadState) :
    Option PlayheadState :=
  us.foldl (fun s u => (crdtUpdate s u).1) cur

/-- The stored state before the first update and after each update of the
sequence, in order. -/
def traceStates (cur : Option PlayheadState) (us : List PlayheadState) :
    List (Option PlayheadState) :=
  us.scanl (fun s u => (crdtUpdate s u).1) cur

/-- The visible timestamp does not decrease from x to y. -/
def hlcNondecreasing (x y : Option PlayheadState) : Prop :=
  ∀ a b, x = some a → y = some b → 0 ≤ compareHLC b.ts a.ts
/-- scheduleBroadcast from server/src/index.ts, per session key: when no
broadcast is pending for the session the state is recorded and the 20 ms
timer is armed (Bool result true, a window opens); otherwise the pending
entry is overwritten and the timer is left alone. -/
def scheduleBroadcast (pending : Option PlayheadState) (m : PlayheadState) :
    Option PlayheadState × Bool :=
  match pending with
  | none => (some m, true)
  | some _ => (some m, false)

/-- Fold of scheduleBroadcast over a burst of states handed to the
coalescer while the window stays open; counts the timers armed. -/
def runBurst (ms : List PlayheadState) : Option PlayheadState × Nat :=
  ms.foldl
    (fun acc m =>
      ((scheduleBroadcast acc.1 m).1,
        acc.2 + (if (scheduleBroadcast acc.1 m).2 then 1 else 0)))
    (none, 0)

/-- The timer callback in scheduleBroadcast: take the pending entry,
broadcast it, delete the entry. Returns the pending map entry after the
fire and the broadcast payloads emitted. -/
def fireWindow (pending : Option PlayheadState) :
    Option PlayheadState × List PlayheadState :=
  match pending with
  | some m => (none, [m])
  | none => (none, [])
/-- The per-session state seen by the CRDT_UPDATE case together with the
coalescer entry for the session: the stored register, the pending
broadcast, and how many windows have been opened. -/
structure SessionWindow where
  latest : Option PlayheadState
  pending : Option PlayheadState
  windowsOpened : Nat

/-- One CRDT_UPDATE delivery followed by the scheduleBroadcast call the
handler makes when the merge changed the stored reference. -/
def deliverUpdate (s : SessionWindow) (u : PlayheadState) : SessionWindow :=
  match (crdtUpdate s.latest u).2 with
  | none => { s with latest := (crdtUpdate s.latest u).1 }
  | some payload =>
    { latest := (crdtUpdate s.latest u).1
      pending := (scheduleBroadcast s.pending payload).1
      windowsOpened :=
        s.windowsOpened + (if (scheduleBroadcast s.pending payload).2 then 1 else 0) }

def deliverAll (s : SessionWindow) (us : List PlayheadState) : SessionWindow :=
  us.foldl deliverUpdate s
/-- Server-to-client messages, from server/src/types.ts. -/
inductive OutMessage where
  | sessionCreated (sessionId : String) (state : PlayheadState)
  | sessionSnapshot (sessionId : String) (state : PlayheadState) (url : String)
  | stateBroadcast (sessionId : String) (state : PlayheadState)
deriving DecidableEq

/-- The two module-level maps of server/src/index.ts, plus the open flag
of each connection (readyState === OPEN). Connections are identified by
numbers; subscriber sets are lists without duplicates, in insertion
order, as a JavaScript Set iterates. -/
structure ServerState where
  sessions : String → Option (List Nat)
  latestState : String → Option PlayheadState
  wsOpen : Nat → Bool

/-- Map.set on a string-keyed map. -/
def mapSet {α : Type} (m : String → Option α) (k : String) (v : α) :
    String → Option α :=
  fun q => if q = k then some v else m q

/-- Set.add: appends when the element is not yet present. -/
def setAdd (l : List Nat) (w : Nat) : List Nat :=
  if w ∈ l then l else l ++ [w]

/-- broadcast from server/src/index.ts: look up the session's subscriber
set; when the session is gone, warn and return; otherwise send the
message to every open subscriber. The maps are returned untouched —
the function only reads them. -/
def broadcast (st : ServerState) (sessionId : String) (m : OutMessage) :
    ServerState × List (Nat × OutMessage) :=
  match st.sessions sessionId with
  | none => (st, [])
  | some clients => (st, (clients.filter st.wsOpen).map (fun w => (w, m)))

/-- The CREATE_SESSION case of the message handler: ensure a subscriber
set exists, add the caller, build the initial state stamped with the
current wall clock and the session id as client id, store it
(overwriting any previous state for the id), and reply SESSION_CREATED
to the caller only. -/
def handleCreate (st : ServerState) (sessionId : String) (url : String)
    (now : Int) (ws : Nat) : ServerState × OutMessage :=
  let subs := (st.sessions sessionId).getD []
  let initial : PlayheadState :=
    { ts := { p := now, l := 0, c := sessionId }
      pos := 0
      playing := false
      url := some url }
  ({ st with
      sessions := mapSet st.sessions sessionId (setAdd subs ws)
      latestState := mapSet st.latestState sessionId initial },
   OutMessage.sessionCreated sessionId initial)

/-- The close handler of server/src/index.ts: remove the socket from
every session's subscriber set; a session whose set becomes empty is
deleted from both maps. -/
def handleClose (st : ServerState) (ws : Nat) : ServerState :=
  { st with
    sessions := fun sid =>
      match st.sessions sid with
      | none => none
      | some cl =>
        if ws ∈ cl then
          (if cl.erase ws = [] then none else some (cl.erase ws))
        else some cl
    latestState := fun sid =>
      match st.sessions sid with
      | none => st.latestState sid
      | some cl =>
        if ws ∈ cl then
          (if cl.erase ws = [] then none else st.latestState sid)
        else st.latestState sid }

/-- A JSON value as seen after JSON.parse, as far as the runtime check
needs to inspect it. -/
inductive JVal where
  | jstr : String → JVal
  | jnum : Int → JVal
  | jbool : Bool → JVal
  | jnull : JVal
deriving DecidableEq

/-- typeof msg.field === a string check, where the field may be absent
(undefined). typeof undefined and typeof null are not the string type. -/
def isStringField : Option JVal → Bool
  | some (JVal.jstr _) => true
  | _ => false

/-- An inbound frame after JSON.parse. The type, sessionId and url
fields are arbitrary JSON values or absent; the state field is modelled
as some u when present and shaped as a PlayheadState, none when absent
(the case the runtime check never looks at). -/
structure RawMessage where
  typeField : Option JVal
  sessionIdField : Option JVal
  urlField : Option JVal
  stateField : Option PlayheadState

/-- The CRDT_UPDATE case applied to a raw state field. With a present,
well-shaped state it runs crdtUpdate. With an absent state the code
calls mergeState(current, undefined): when no state is stored, mergeState
returns undefined and the handler sees no change; when a state is
stored, compareHLC dereferences undefined.ts and the handler throws. -/
def crdtCaseRaw (cur : Option PlayheadState)
    (stateField : Option PlayheadState) :
    Except String (Option PlayheadState × Option PlayheadState) :=
  match stateField with
  | some u => Except.ok (crdtUpdate cur u)
  | none =>
    match cur with
    | none => Except.ok (cur, none)
    | some _ =>
      Except.error "TypeError: Cannot read properties of undefined (reading ts)"

/-- The ws message handler of server/src/index.ts after JSON.parse
succeeded: the minimal runtime check drops frames whose type or
sessionId is not a string; then the switch runs. Result: the new server
state, the direct replies sent to the calling socket, and the payload
handed to scheduleBroadcast, if any. A thrown TypeError is the error
case. -/
def wsOnMessage (st : ServerState) (raw : RawMessage) (now : Int) (ws : Nat) :
    Except String (ServerState × List (Nat × OutMessage)
      × Option (String × PlayheadState)) :=
  if isStringField raw.typeField && isStringField raw.sessionIdField then
    match raw.typeField, raw.sessionIdField with
    | some (JVal.jstr ty), some (JVal.jstr sessionId) =>
      if ty = "CREATE_SESSION" then
        let url := match raw.urlField with
          | some (JVal.jstr u) => u
          | _ => ""
        let r := handleCreate st sessionId url now ws
        Except.ok (r.1, [(ws, r.2)], none)
      else if ty = "JOIN_SESSION" then
        let subs := (st.sessions sessionId).getD []
        let st1 := { st with
          sessions := mapSet st.sessions sessionId (setAdd subs ws) }
        match st.latestState sessionId with
        | some snapshot =>
          Except.ok (st1,
            [(ws, OutMessage.sessionSnapshot sessionId snapshot
              (snapshot.url.getD ""))], none)
        | none => Except.ok (st1, [], none)
      else if ty = "CRDT_UPDATE" then
        match crdtCaseRaw (st.latestState sessionId) raw.stateField with
        | Except.error e => Except.error e
        | Except.ok (stored, payload) =>
          match payload with
          | some p =>
            Except.ok ({ st with
              latestState := mapSet st.latestState sessionId p },
              [], some (sessionId, p))
          | none =>
            let _ := stored
            Except.ok (st, [], none)
      else
        Except.ok (st, [], none)
    | _, _ => Except.ok (st, [], none)
  else
    Except.ok (st, [], none)

/-- First stage of the client reconciler, the SESSION_SNAPSHOT handler
of routes/WatchSession.tsx: on receipt, when the state is playing, the
position is advanced by the elapsed wall clock since the state was
stamped, (receivedTime - ts.p) / 1000 seconds; the adjusted copy is what
reaches the VideoPlayer as its initialState. -/
def adjustSnapshotState (receivedTime : Int) (state : PlayheadState) :
    PlayheadState :=
  if state.playing then
    { state with
        pos := state.pos + ((receivedTime : Rat) - (state.ts.p : Rat)) / 1000 }
  else state

/-- The STATE_BROADCAST handler of routes/WatchSession.tsx: the same
elapsed-wall-clock adjustment, skipped when the update is detected as a
seek event — a previous playhead state exists and the position moved by
more than 1 second from it. -/
def adjustBroadcastState (receivedTime : Int) (prev : Option PlayheadState)
    (state : PlayheadState) : PlayheadState :=
  let isSeekEvent : Bool :=
    match prev with
    | some p => decide (1 < |state.pos - p.pos|)
    | none => false
  if state.playing && !isSeekEvent then
    { state with
        pos := state.pos + ((receivedTime : Rat) - (state.ts.p : Rat)) / 1000 }
  else state

/-- Seek threshold of the VideoPlayer remote-update effect, 1.5 s. -/
def seekThreshold : Rat := 3 / 2

/-- Network-delay fudge applied by the VideoPlayer when the incoming
state is playing: a fixed 0.2 s. -/
def networkDelayAdjustment (playing : Bool) : Rat :=
  if playing then 1 / 5 else 0

/-- Second stage of the client reconciler, the remote-update effect of
components/VideoPlayer.tsx: the target the player steers to, computed
from the state it receives from WatchSession — that is, from the
already wall-clock-adjusted state — plus the fixed network-delay
fudge when playing. -/
def targetPosition (s : PlayheadState) : Rat :=
  if s.playing then s.pos + networkDelayAdjustment s.playing else s.pos

/-- needsSeek of the VideoPlayer remote-update effect: seek only when
the local playback time is more than the threshold away from the target
position. Applied to the WatchSession-adjusted state, this is the seek
decision of the whole client pipeline. -/
def needsSeek (currentTime : Rat) (s : PlayheadState) : Bool :=
  decide (seekThreshold < |currentTime - targetPosition s|)

/-- A demo playhead state with the older timestamp. -/
def sA : PlayheadState :=
  { ts := { p := 100, l := 0, c := "x" }, pos := 0, playing := false, url := none }

/-- A demo playhead state with the newer timestamp. -/
def sB : PlayheadState :=
  { ts := { p := 200, l := 1, c := "y" }, pos := 5, playing := true, url := none }

/-- Two distinct updates carrying the same HLC timestamp. -/
def u1c : PlayheadState :=
  { ts := { p := 5, l := 1, c := "a" }, pos := 0, playing := false, url := none }

def u2c : PlayheadState :=
  { ts := { p := 5, l := 1, c := "a" }, pos := 0, playing := true, url := none }

/-- A playing state stamped at wall clock 0, position 10 s. -/
def s9 : PlayheadState :=
  { ts := { p := 0, l := 0, c := "a" }, pos := 10, playing := true, url := none }

/-- A server with one session s, one subscriber, and a stored state. -/
def stDemo : ServerState :=
  { sessions := fun sid => if sid = "s" then some [1] else none
    latestState := fun sid => if sid = "s" then some sA else none
    wsOpen := fun _ => true }

/-- A CRDT_UPDATE frame whose state field is absent. -/
def rawNoState : RawMessage :=
  { typeField := some (JVal.jstr "CRDT_UPDATE")
    sessionIdField := some (JVal.jstr "s")
    urlField := none
    stateField := none }

def mDemo : OutMessage := OutMessage.stateBroadcast "s" sA


theorem hlcLt_trans {a b c : HLC} (hab : hlcLt a b) (hbc : hlcLt b c) :
    hlcLt a c := by
  rcases hab with h1 | ⟨e1, h1⟩
  · rcases hbc with h2 | ⟨e2, h2⟩
    · exact Or.inl (lt_trans h1 h2)
    · exact Or.inl (e2 ▸ h1)
  · rcases hbc with h2 | ⟨e2, h2⟩
    · exact Or.inl (e1 ▸ h2)
    · refine Or.inr ⟨e1.trans e2, ?_⟩
      rcases h1 with h1 | ⟨f1, h1⟩
      · rcases h2 with h2 | ⟨f2, h2⟩
        · exact Or.inl (lt_trans h1 h2)
        · exact Or.inl (f2 ▸ h1)
      · rcases h2 with h2 | ⟨f2, h2⟩
        · exact Or.inl (f1 ▸ h2)
        · exact Or.inr ⟨f1.trans f2, lt_trans h1 h2⟩

theorem hlcLt_asymm {a b : HLC} (hab : hlcLt a b) : ¬ hlcLt b a := by
  intro hba
  rcases hab with h1 | ⟨e1, h1⟩
  · rcases hba with h2 | ⟨e2, h2⟩
    · exact absurd (lt_trans h1 h2) (lt_irrefl _)
    · exact absurd (e2 ▸ h1) (lt_irrefl _)
  · rcases hba with h2 | ⟨e2, h2⟩
    · exact absurd (e1 ▸ h2) (lt_irrefl _)
    · rcases h1 with h1 | ⟨f1, h1⟩
      · rcases h2 with h2 | ⟨f2, h2⟩
        · exact absurd (lt_trans h1 h2) (lt_irrefl _)
        · exact absurd (f2 ▸ h1) (lt_irrefl _)
      · rcases h2 with h2 | ⟨f2, h2⟩
        · exact absurd (f1 ▸ h2) (lt_irrefl _)
        · exact absurd (lt_trans h1 h2) (lt_irrefl _)

theorem hlcLt_irrefl (a : HLC) : ¬ hlcLt a a := by
  intro h; exact hlcLt_asymm h h

theorem hlcLt_total_of_ne {a b : HLC} (h : a ≠ b) : hlcLt a b ∨ hlcLt b a := by
  rcases lt_trichotomy a.p b.p with hp | hp | hp
  · exact Or.inl (Or.inl hp)
  · rcases lt_trichotomy a.l b.l with hl | hl | hl
    · exact Or.inl (Or.inr ⟨hp, Or.inl hl⟩)
    · rcases lt_trichotomy a.c b.c with hc | hc | hc
      · exact Or.inl (Or.inr ⟨hp, Or.inr ⟨hl, hc⟩⟩)
      · exact absurd (by cases a; cases b; simp_all) h
      · exact Or.inr (Or.inr ⟨hp.symm, Or.inr ⟨hl.symm, hc⟩⟩)
    · exact Or.inr (Or.inr ⟨hp.symm, Or.inl hl⟩)
  · exact Or.inr (Or.inl hp)

theorem hlcLe_of_not_lt {a b : HLC} (h : ¬ hlcLt a b) : hlcLe b a := by
  by_cases he : a = b
  · exact Or.inr he.symm
  · rcases hlcLt_total_of_ne he with h1 | h1
    · exact absurd h1 h
    · exact Or.inl h1

theorem hlcLt_of_le_of_lt {a b c : HLC} (hab : hlcLe a b) (hbc : hlcLt b c) :
    hlcLt a c := by
  rcases hab with h | h
  · exact hlcLt_trans h hbc
  · exact h ▸ hbc

theorem compareHLC_pos_iff (a b : HLC) : 0 < compareHLC a b ↔ hlcLt b a := by
  unfold compareHLC localeCompare hlcLt
  by_cases hp : a.p = b.p
  · rw [if_neg (not_not_intro hp)]
    by_cases hl : a.l = b.l
    · rw [if_neg (not_not_intro hl)]
      by_cases hc1 : a.c < b.c
      · rw [if_pos hc1]
        constructor
        · intro h; omega
        · rintro (h | ⟨e, h | ⟨e2, h⟩⟩)
          · omega
          · omega
          · exact absurd h (lt_asymm hc1)
      · by_cases hc2 : a.c = b.c
        · rw [if_neg hc1, if_pos hc2]
          constructor
          · intro h; omega
          · rintro (h | ⟨e, h | ⟨e2, h⟩⟩)
            · omega
            · omega
            · rw [hc2] at h
              exact absurd h (lt_irrefl _)
        · rw [if_neg hc1, if_neg hc2]
          have hc3 : b.c < a.c := by
            rcases lt_trichotomy a.c b.c with h | h | h
            · exact absurd h hc1
            · exact absurd h hc2
            · exact h
          constructor
          · intro _
            exact Or.inr ⟨hp.symm, Or.inr ⟨hl.symm, hc3⟩⟩
          · intro _
            omega
    · rw [if_pos hl]
      constructor
      · intro h
        exact Or.inr ⟨hp.symm, Or.inl (by omega)⟩
      · rintro (h | ⟨e, h | ⟨e2, h⟩⟩)
        · omega
        · omega
        · omega
  · rw [if_pos hp]
    constructor
    · intro h
      exact Or.inl (by omega)
    · rintro (h | ⟨e, h⟩)
      · omega
      · omega

theorem compareHLC_eq_zero_iff (a b : HLC) : compareHLC a b = 0 ↔ a = b := by
  unfold compareHLC localeCompare
  by_cases hp : a.p = b.p
  · rw [if_neg (not_not_intro hp)]
    by_cases hl : a.l = b.l
    · rw [if_neg (not_not_intro hl)]
      by_cases hc1 : a.c < b.c
      · rw [if_pos hc1]
        constructor
        · intro h; omega
        · intro h
          rw [h] at hc1
          exact absurd hc1 (lt_irrefl _)
      · by_cases hc2 : a.c = b.c
        · rw [if_neg hc1, if_pos hc2]
          constructor
          · intro _
            cases a; cases b; simp_all
          · intro _; rfl
        · rw [if_neg hc1, if_neg hc2]
          constructor
          · intro h; omega
          · intro h
            rw [h] at hc2
            exact absurd rfl hc2
    · rw [if_pos hl]
      constructor
      · intro h; omega
      · intro h
        rw [h] at hl
        exact absurd rfl hl
  · rw [if_pos hp]
    constructor
    · intro h; omega
    · intro h
      rw [h] at hp
      exact absurd rfl hp

theorem compareHLC_swap (a b : HLC) : compareHLC a b = -compareHLC b a := by
  unfold compareHLC localeCompare
  by_cases hp : a.p = b.p
  · rw [if_neg (not_not_intro hp), if_neg (not_not_intro hp.symm)]
    by_cases hl : a.l = b.l
    · rw [if_neg (not_not_intro hl), if_neg (not_not_intro hl.symm)]
      rcases lt_trichotomy a.c b.c with hc | hc | hc
      · rw [if_pos hc, if_neg (lt_asymm hc), if_neg (ne_of_gt hc)]
      · rw [if_neg (by simp [hc]), if_pos hc, if_neg (by simp [hc]), if_pos hc.symm]
        simp
      · rw [if_neg (lt_asymm hc), if_neg (ne_of_gt hc), if_pos hc]
        rfl
    · rw [if_pos hl, if_pos (fun h => hl h.symm)]
      omega
  · rw [if_pos hp, if_pos (fun h => hp h.symm)]
    omega

theorem compareHLC_neg_iff (a b : HLC) : compareHLC a b < 0 ↔ hlcLt a b := by
  have h := compareHLC_pos_iff b a
  rw [compareHLC_swap a b]
  constructor
  · intro hneg
    exact h.mp (by omega)
  · intro hlt
    have := h.mpr hlt
    omega

theorem compareHLC_nonneg_iff (a b : HLC) : 0 ≤ compareHLC a b ↔ ¬ hlcLt a b := by
  have h := compareHLC_neg_iff a b
  constructor
  · intro hge hlt
    have := h.mpr hlt
    omega
  · intro hn
    by_contra hneg
    exact hn (h.mp (by omega))

theorem mergeState_none (u : PlayheadState) : mergeState none u = u := rfl

theorem mergeState_some (c u : PlayheadState) :
    mergeState (some c) u = if 0 < compareHLC u.ts c.ts then u else c := rfl

theorem mergeState_of_lt {c u : PlayheadState} (h : hlcLt c.ts u.ts) :
    mergeState (some c) u = u := by
  rw [mergeState_some, if_pos ((compareHLC_pos_iff u.ts c.ts).mpr h)]

theorem mergeState_of_not_lt {c u : PlayheadState} (h : ¬ hlcLt c.ts u.ts) :
    mergeState (some c) u = c := by
  rw [mergeState_some, if_neg (fun hp => h ((compareHLC_pos_iff u.ts c.ts).mp hp))]

theorem crdtUpdate_fst_some (c : PlayheadState) (u : PlayheadState) :
    ∃ b, (crdtUpdate (some c) u).1 = some b ∧ 0 ≤ compareHLC b.ts c.ts := by
  unfold crdtUpdate
  by_cases h : mergeState (some c) u = c
  · refine ⟨c, ?_, ?_⟩
    · simp [h]
    · rw [compareHLC_nonneg_iff]
      exact hlcLt_irrefl c.ts
  · refine ⟨mergeState (some c) u, ?_, ?_⟩
    · simp [h]
    · by_cases hlt : hlcLt c.ts u.ts
      · rw [mergeState_of_lt hlt, compareHLC_nonneg_iff]
        exact hlcLt_asymm hlt
      · rw [mergeState_of_not_lt hlt] at h
        exact absurd rfl h

theorem traceStates_isSome (st : PlayheadState) (us : List PlayheadState) :
    ∀ x ∈ traceStates (some st) us, x.isSome := by
  induction us generalizing st with
  | nil =>
    intro x hx
    simp only [traceStates, List.scanl] at hx
    simp only [List.mem_singleton] at hx
    simp [hx]
  | cons u rest ih =>
    intro x hx
    simp only [traceStates, List.scanl] at hx
    rcases List.mem_cons.mp hx with h | h
    · simp [h]
    · obtain ⟨b, hb, _⟩ := crdtUpdate_fst_some st u
      rw [hb] at h
      exact ih b x h

theorem head?_scanl {α β : Type} (f : β → α → β) (b : β) (l : List α) :
    (List.scanl f b l).head? = some b := by
  cases l <;> simp [List.scanl]

theorem traceStates_chain (st : PlayheadState) (us : List PlayheadState) :
    List.Chain' hlcNondecreasing (traceStates (some st) us) := by
  induction us generalizing st with
  | nil =>
    simp [traceStates, List.scanl]
  | cons u rest ih =>
    simp only [traceStates, List.scanl]
    obtain ⟨b, hb, hmono⟩ := crdtUpdate_fst_some st u
    rw [hb]
    refine List.Chain'.cons' ?_ ?_
    · have := ih b
      simpa [traceStates] using this
    · intro y hy
      rw [head?_scanl] at hy
      have hyb : y = some b := (Option.some.inj (Option.mem_def.mp hy)).symm
      subst hyb
      intro p q hp hq
      cases Option.some.inj hp
      cases Option.some.inj hq
      exact hmono

theorem runUpdates_some (st : PlayheadState) (us : List PlayheadState) :
    ∃ stN, runUpdates (some st) us = some stN ∧ 0 ≤ compareHLC stN.ts st.ts := by
  induction us generalizing st with
  | nil =>
    refine ⟨st, rfl, ?_⟩
    rw [compareHLC_nonneg_iff]
    exact hlcLt_irrefl st.ts
  | cons u rest ih =>
    obtain ⟨b, hb, hmono⟩ := crdtUpdate_fst_some st u
    obtain ⟨stN, hN, hmonoN⟩ := ih b
    refine ⟨stN, ?_, ?_⟩
    · simpa [runUpdates, hb] using hN
    · rw [compareHLC_nonneg_iff] at hmono hmonoN ⊢
      intro hlt
      exact hmono (hlcLt_of_le_of_lt (hlcLe_of_not_lt hmonoN) hlt)


theorem runBurst_from_some (ms : List PlayheadState) :
    ∀ (p : PlayheadState) (k : Nat),
      ms.foldl
        (fun acc m =>
          ((scheduleBroadcast acc.1 m).1,
            acc.2 + (if (scheduleBroadcast acc.1 m).2 then 1 else 0)))
        (some p, k)
      = (some (ms.getLastD p), k) := by
  induction ms with
  | nil => intro p k; rfl
  | cons m rest ih =>
    intro p k
    rw [List.foldl_cons, List.getLastD_cons]
    exact ih m k

theorem runBurst_eq (ms : List PlayheadState) (m : PlayheadState)
    (h : ms.getLast? = some m) : runBurst ms = (some m, 1) := by
  cases ms with
  | nil => cases h
  | cons m0 rest =>
    have h4 : rest.getLastD m0 = m := by
      have h5 : (m0 :: rest).getLastD m0 = m := by
        rw [List.getLastD_eq_getLast?, h]
        rfl
      rwa [List.getLastD_cons] at h5
    unfold runBurst
    rw [List.foldl_cons]
    have h6 := runBurst_from_some rest m0 1
    rw [h4] at h6
    exact h6


theorem crdtUpdate_snd_none (cur : Option PlayheadState) (u : PlayheadState)
    (h : (crdtUpdate cur u).2 = none) : (crdtUpdate cur u).1 = cur := by
  cases cur with
  | none => simp [crdtUpdate] at h
  | some c =>
    by_cases hm : mergeState (some c) u = c
    · simp [crdtUpdate, hm]
    · simp [crdtUpdate, hm] at h

theorem crdtUpdate_snd_some (cur : Option PlayheadState) (u : PlayheadState)
    (p : PlayheadState) (h : (crdtUpdate cur u).2 = some p) :
    (crdtUpdate cur u).1 = some p := by
  cases cur with
  | none =>
    simp only [crdtUpdate] at h ⊢
    exact h
  | some c =>
    by_cases hm : mergeState (some c) u = c
    · simp [crdtUpdate, hm] at h
    · simp only [crdtUpdate, hm, if_false] at h ⊢
      exact h

/-- After any delivery sequence, the pending broadcast (when present) is
the current stored state: a fired window never carries a stale
intermediate. -/
theorem deliverAll_pending_current (us : List PlayheadState) :
    ∀ s : SessionWindow, (s.pending = none ∨ s.pending = s.latest) →
      ((deliverAll s us).pending = none
        ∨ (deliverAll s us).pending = (deliverAll s us).latest) := by
  induction us with
  | nil => intro s hs; exact hs
  | cons u rest ih =>
    intro s hs
    have hstep : (deliverUpdate s u).pending = none
        ∨ (deliverUpdate s u).pending = (deliverUpdate s u).latest := by
      unfold deliverUpdate
      rcases hcu : (crdtUpdate s.latest u).2 with _ | payload
      · have h1 := crdtUpdate_snd_none s.latest u hcu
        simp only [hcu, h1]
        simpa using hs
      · have h1 := crdtUpdate_snd_some s.latest u payload hcu
        right
        cases hp : s.pending <;> simp [hcu, scheduleBroadcast, h1, hp]
    have := ih (deliverUpdate s u) hstep
    simpa [deliverAll, List.foldl_cons] using this




/-- Claim C1, counterexample: two distinct updates that carry the same
HLC timestamp are not order-independent — from an absent starting state
the merge keeps whichever of them arrived first. -/
theorem c1_counterexample :
    mergeState (some (mergeState none u1c)) u2c
      ≠ mergeState (some (mergeState none u2c)) u1c := by
  intro h
  have h1 : mergeState (some (mergeState none u1c)) u2c = u1c := by
    show mergeState (some u1c) u2c = u1c
    exact mergeState_of_not_lt (hlcLt_irrefl u1c.ts)
  have h2 : mergeState (some (mergeState none u2c)) u1c = u2c := by
    show mergeState (some u2c) u1c = u2c
    exact mergeState_of_not_lt (hlcLt_irrefl u2c.ts)
  rw [h1, h2] at h
  have hb : u1c.playing = u2c.playing := congrArg PlayheadState.playing h
  simp [u1c, u2c] at hb

/-- Claim C1, amended: for every starting state s (possibly absent) and
every two updates u1, u2 with distinct HLC timestamps, applying them to
the merge in either order yields the same final state, and from an
absent start the result is whichever update has the greater HLC. -/
theorem c1_merge_order_independent (s : Option PlayheadState)
    (u1 u2 : PlayheadState) (h : u1.ts ≠ u2.ts) :
    mergeState (some (mergeState s u1)) u2
        = mergeState (some (mergeState s u2)) u1
    ∧ mergeState (some (mergeState none u1)) u2
        = (if 0 < compareHLC u1.ts u2.ts then u1 else u2) := by
  constructor
  · cases s with
    | none =>
      show mergeState (some u1) u2 = mergeState (some u2) u1
      rcases hlcLt_total_of_ne h with h12 | h21
      · rw [mergeState_of_lt h12, mergeState_of_not_lt (hlcLt_asymm h12)]
      · rw [mergeState_of_not_lt (hlcLt_asymm h21), mergeState_of_lt h21]
    | some c =>
      by_cases h1 : hlcLt c.ts u1.ts
      · by_cases h2 : hlcLt c.ts u2.ts
        · rw [mergeState_of_lt h1, mergeState_of_lt h2]
          rcases hlcLt_total_of_ne h with h12 | h21
          · rw [mergeState_of_lt h12, mergeState_of_not_lt (hlcLt_asymm h12)]
          · rw [mergeState_of_not_lt (hlcLt_asymm h21), mergeState_of_lt h21]
        · have h21 : hlcLt u2.ts u1.ts :=
            hlcLt_of_le_of_lt (hlcLe_of_not_lt h2) h1
          rw [mergeState_of_lt h1, mergeState_of_not_lt h2,
            mergeState_of_not_lt (hlcLt_asymm h21), mergeState_of_lt h1]
      · by_cases h2 : hlcLt c.ts u2.ts
        · have h12 : hlcLt u1.ts u2.ts :=
            hlcLt_of_le_of_lt (hlcLe_of_not_lt h1) h2
          rw [mergeState_of_not_lt h1, mergeState_of_lt h2,
            mergeState_of_not_lt (hlcLt_asymm h12)]
        · rw [mergeState_of_not_lt h1, mergeState_of_not_lt h2,
            mergeState_of_not_lt h1]
  · show mergeState (some u1) u2 = if 0 < compareHLC u1.ts u2.ts then u1 else u2
    rcases hlcLt_total_of_ne h with h12 | h21
    · rw [mergeState_of_lt h12,
        if_neg (fun hp => hlcLt_asymm h12 ((compareHLC_pos_iff u1.ts u2.ts).mp hp))]
    · rw [mergeState_of_not_lt (hlcLt_asymm h21),
        if_pos ((compareHLC_pos_iff u1.ts u2.ts).mpr h21)]

/-- Witness for c1_merge_order_independent at two concrete updates with
distinct timestamps. -/
theorem c1_merge_order_independent_witness :
    sA.ts ≠ sB.ts
    ∧ (mergeState (some (mergeState none sA)) sB
          = mergeState (some (mergeState none sB)) sA
        ∧ mergeState (some (mergeState none sA)) sB
            = (if 0 < compareHLC sA.ts sB.ts then sA else sB)) :=
  ⟨by decide, c1_merge_order_independent none sA sB (by decide)⟩

/-- Claim C2: along any sequence of CRDT_UPDATE operations on one
session, every stored state stays present, the HLC of the visible state
never decreases between consecutive operations, and the final timestamp
is at least the initial one under the comparator. -/
theorem c2_hlc_monotone (st : PlayheadState) (us : List PlayheadState) :
    (∀ x ∈ traceStates (some st) us, x.isSome)
    ∧ List.Chain' hlcNondecreasing (traceStates (some st) us)
    ∧ ∃ stN, runUpdates (some st) us = some stN
        ∧ 0 ≤ compareHLC stN.ts st.ts :=
  ⟨traceStates_isSome st us, traceStates_chain st us, runUpdates_some st us⟩

/-- Witness for c2_hlc_monotone on a concrete one-update sequence. -/
theorem c2_hlc_monotone_witness :
    runUpdates (some sA) [sB] = some sB ∧ 0 ≤ compareHLC sB.ts sA.ts := by
  obtain ⟨stN, h1, h2⟩ := (c2_hlc_monotone sA [sB]).2.2
  have hv : runUpdates (some sA) [sB] = some sB := by decide
  rw [hv] at h1
  cases Option.some.inj h1
  exact ⟨hv, h2⟩

/-- Claim C3: a burst of N greater or equal 1 states handed to the
coalescer while one window is open arms exactly one timer; firing the
window emits exactly one broadcast, and it carries the last scheduled
state; moreover along the real update pipeline the pending broadcast is
always the currently stored state, never a stale intermediate. The
N = 1 case of the quantifier is the lone update getting its own window
and broadcast. -/
theorem c3_coalescing_bound (ms : List PlayheadState) (m : PlayheadState)
    (h : ms.getLast? = some m) :
    runBurst ms = (some m, 1)
    ∧ (fireWindow (runBurst ms).1).2 = [m]
    ∧ ∀ (us : List PlayheadState) (s : SessionWindow),
        (s.pending = none ∨ s.pending = s.latest) →
        ((deliverAll s us).pending = none
          ∨ (deliverAll s us).pending = (deliverAll s us).latest) := by
  refine ⟨runBurst_eq ms m h, ?_, ?_⟩
  · rw [runBurst_eq ms m h]
    rfl
  · intro us s hs
    exact deliverAll_pending_current us s hs

/-- Witness for c3_coalescing_bound on a concrete two-update burst. -/
theorem c3_coalescing_bound_witness :
    runBurst [sA, sB] = (some sB, 1)
    ∧ (fireWindow (runBurst [sA, sB]).1).2 = [sB]
    ∧ ((deliverAll { latest := none, pending := none, windowsOpened := 0 }
          [sA, sB]).pending = none
        ∨ (deliverAll { latest := none, pending := none, windowsOpened := 0 }
            [sA, sB]).pending
          = (deliverAll { latest := none, pending := none, windowsOpened := 0 }
              [sA, sB]).latest) := by
  obtain ⟨h1, h2, h3⟩ := c3_coalescing_bound [sA, sB] sB (by rfl)
  exact ⟨h1, h2,
    h3 [sA, sB] { latest := none, pending := none, windowsOpened := 0 }
      (Or.inl rfl)⟩

/-- Claim C4, counterexample: compareHLC is not valued in the three
values -1, 0, +1: on physical times 2 and 0 it returns their
difference 2. -/
theorem c4_counterexample :
    compareHLC { p := 2, l := 0, c := "x" } { p := 0, l := 0, c := "x" } = 2
    ∧ compareHLC { p := 2, l := 0, c := "x" } { p := 0, l := 0, c := "x" } ≠ -1
    ∧ compareHLC { p := 2, l := 0, c := "x" } { p := 0, l := 0, c := "x" } ≠ 0
    ∧ compareHLC { p := 2, l := 0, c := "x" } { p := 0, l := 0, c := "x" } ≠ 1 := by
  refine ⟨?_, ?_, ?_, ?_⟩ <;> decide

/-- Claim C4, amended: the sign of compareHLC decides the order exactly
as claimed: positive exactly when a is greater by physical time first,
then logical counter, then lexicographically larger originId; negative
exactly when b is greater; zero exactly for identical triples. -/
theorem c4_compare_sign (a b : HLC) :
    (0 < compareHLC a b ↔ hlcLt b a)
    ∧ (compareHLC a b < 0 ↔ hlcLt a b)
    ∧ (compareHLC a b = 0 ↔ a = b) :=
  ⟨compareHLC_pos_iff a b, compareHLC_neg_iff a b, compareHLC_eq_zero_iff a b⟩

/-- Claim C5: mergeState returns the incoming state when current is
absent; otherwise it returns the incoming state exactly when its HLC
strictly wins the comparison and returns the current state unchanged in
every other case. -/
theorem c5_merge_def (c u : PlayheadState) :
    mergeState none u = u
    ∧ (0 < compareHLC u.ts c.ts → mergeState (some c) u = u)
    ∧ (¬ 0 < compareHLC u.ts c.ts → mergeState (some c) u = c) := by
  refine ⟨rfl, ?_, ?_⟩
  · intro h
    rw [mergeState_some, if_pos h]
  · intro h
    rw [mergeState_some, if_neg h]

/-- Witness for c5_merge_def: the newer state wins in both positions. -/
theorem c5_merge_def_witness :
    mergeState none sB = sB
    ∧ mergeState (some sA) sB = sB
    ∧ mergeState (some sB) sA = sB := by
  obtain ⟨h0, h1, _⟩ := c5_merge_def sA sB
  obtain ⟨_, _, h2⟩ := c5_merge_def sB sA
  exact ⟨h0, h1 (by decide), h2 (by decide)⟩

/-- Claim C6: a CRDT_UPDATE whose state does not strictly win the merge
leaves the stored state untouched and hands nothing to the broadcast
scheduler: the stale update is silently absorbed. -/
theorem c6_stale_silently_absorbed (c u : PlayheadState)
    (h : ¬ 0 < compareHLC u.ts c.ts) :
    crdtUpdate (some c) u = (some c, none)
    ∧ ∀ s : SessionWindow, s.latest = some c → deliverUpdate s u = s := by
  have hm : mergeState (some c) u = c := by
    rw [mergeState_some, if_neg h]
  have hcu : crdtUpdate (some c) u = (some c, none) := by
    simp [crdtUpdate, hm]
  refine ⟨hcu, ?_⟩
  intro s hs
  unfold deliverUpdate
  rw [hs, hcu]
  show ({ latest := some c, pending := s.pending,
          windowsOpened := s.windowsOpened } : SessionWindow) = s
  rw [← hs]

/-- Witness for c6_stale_silently_absorbed: the older sA against the
stored sB changes nothing. -/
theorem c6_stale_silently_absorbed_witness :
    crdtUpdate (some sB) sA = (some sB, none)
    ∧ deliverUpdate { latest := some sB, pending := none, windowsOpened := 0 } sA
        = { latest := some sB, pending := none, windowsOpened := 0 } := by
  obtain ⟨h1, h2⟩ := c6_stale_silently_absorbed sB sA (by decide)
  exact ⟨h1,
    h2 { latest := some sB, pending := none, windowsOpened := 0 } rfl⟩

/-- Claim C7, code bug: a CRDT_UPDATE frame with a string type and
string sessionId but no state field passes the minimal runtime check
(only type and sessionId are inspected), so it is not dropped at the
decoding boundary; on a session with stored state the handler then
throws a TypeError inside the merge instead of absorbing the frame. -/
theorem c7_schema_invalid_reaches_merge :
    (isStringField rawNoState.typeField
      && isStringField rawNoState.sessionIdField) = true
    ∧ wsOnMessage stDemo rawNoState 0 1
        = Except.error
            "TypeError: Cannot read properties of undefined (reading ts)" :=
  ⟨rfl, rfl⟩

/-- Claim C8: CREATE_SESSION stores the initial state stamped with the
current wall clock, logical counter 0 and the session id as origin, at
position 0 and paused with the given url; it subscribes the caller and
replies SESSION_CREATED with exactly that state — for any prior registry
content, so an existing id is re-initialized and the last caller wins. -/
theorem c8_create_session (st : ServerState) (sessionId url : String)
    (now : Int) (ws : Nat) :
    (handleCreate st sessionId url now ws).1.latestState sessionId
        = some { ts := { p := now, l := 0, c := sessionId }
                 pos := 0
                 playing := false
                 url := some url }
    ∧ ws ∈ ((handleCreate st sessionId url now ws).1.sessions sessionId).getD []
    ∧ (handleCreate st sessionId url now ws).2
        = OutMessage.sessionCreated sessionId
            { ts := { p := now, l := 0, c := sessionId }
              pos := 0
              playing := false
              url := some url } := by
  refine ⟨?_, ?_, rfl⟩
  · simp [handleCreate, mapSet]
  · simp only [handleCreate, mapSet, if_pos rfl, Option.getD_some]
    unfold setAdd
    by_cases h : ws ∈ (st.sessions sessionId).getD []
    · rw [if_pos h]
      exact h
    · rw [if_neg h]
      exact List.mem_append.mpr (Or.inr (by simp))

/-- Claim C9, counterexample: the client pipeline — the WatchSession
elapsed-wall-clock adjustment followed by the VideoPlayer seek decision
— does not seek only when the local position is more than 1.5 s from
the estimated position. For a playing snapshot at position 10 stamped
5 s before receipt, the estimated position is 15; at local position
13.6 the drift from the estimate is 1.4 s, within the threshold, yet
the player seeks, because VideoPlayer steers to the estimate plus a
further fixed 0.2 s fudge and |13.6 - 15.2| = 1.6 exceeds 1.5. -/
theorem c9_counterexample :
    (adjustSnapshotState 5000 s9).pos = 15
    ∧ needsSeek (68 / 5) (adjustSnapshotState 5000 s9) = true
    ∧ |(68 / 5 : Rat) - (adjustSnapshotState 5000 s9).pos| ≤ 3 / 2 := by
  have hpos : (adjustSnapshotState 5000 s9).pos = 15 := by
    norm_num [adjustSnapshotState, s9]
  have hplay : (adjustSnapshotState 5000 s9).playing = true := by
    simp [adjustSnapshotState, s9]
  refine ⟨hpos, ?_, ?_⟩
  · show decide (seekThreshold
        < |(68 / 5 : Rat) - targetPosition (adjustSnapshotState 5000 s9)|)
      = true
    rw [decide_eq_true_eq]
    have ht : targetPosition (adjustSnapshotState 5000 s9) = 76 / 5 := by
      simp only [targetPosition, networkDelayAdjustment, hplay, if_true]
      rw [hpos]
      norm_num
    rw [ht]
    have h1 : (68 / 5 : Rat) - 76 / 5 = -(8 / 5) := by norm_num
    rw [h1, abs_neg, abs_of_pos (by norm_num)]
    norm_num [seekThreshold]
  · rw [hpos]
    have h2 : (68 / 5 : Rat) - 15 = -(7 / 5) := by norm_num
    rw [h2, abs_neg, abs_of_pos (by norm_num)]
    norm_num

/-- Claim C9, amended: on receipt the client computes the estimated
position exactly as claimed — position plus elapsed wall-clock time
(now - ts.p) / 1000 when playing (and a STATE_BROADCAST update skips
the adjustment when its position moved more than 1 s from the previous
state) — but the player then steers to that estimate plus a further
fixed 0.2 s network-delay fudge when playing, and seeks exactly when
the local position is more than 1.5 s from that target; when paused the
claimed seek condition holds verbatim. -/
theorem c9_reconciler (now : Int) (currentTime : Rat) (s : PlayheadState) :
    (adjustSnapshotState now s).pos
        = s.pos + (if s.playing then ((now : Rat) - (s.ts.p : Rat)) / 1000 else 0)
    ∧ (adjustSnapshotState now s).playing = s.playing
    ∧ (needsSeek currentTime (adjustSnapshotState now s) = true
        ↔ 3 / 2 < |currentTime - ((adjustSnapshotState now s).pos
            + (if s.playing then (1 : Rat) / 5 else 0))|)
    ∧ (s.playing = false →
        (needsSeek currentTime (adjustSnapshotState now s) = true
          ↔ 3 / 2 < |currentTime - s.pos|))
    ∧ adjustBroadcastState now none s = adjustSnapshotState now s
    ∧ (∀ p : PlayheadState, 1 < |s.pos - p.pos| →
        adjustBroadcastState now (some p) s = s)
    ∧ (∀ p : PlayheadState, ¬ 1 < |s.pos - p.pos| →
        adjustBroadcastState now (some p) s = adjustSnapshotState now s) := by
  refine ⟨?_, ?_, ?_, ?_, ?_, ?_, ?_⟩
  · cases hb : s.playing <;> simp [adjustSnapshotState, hb]
  · cases hb : s.playing <;> simp [adjustSnapshotState, hb]
  · cases hb : s.playing <;>
      simp [needsSeek, seekThreshold, targetPosition, networkDelayAdjustment,
        adjustSnapshotState, hb]
  · intro hb
    simp [needsSeek, seekThreshold, targetPosition, networkDelayAdjustment,
      adjustSnapshotState, hb]
  · cases hb : s.playing <;>
      simp [adjustBroadcastState, adjustSnapshotState, hb]
  · intro p hp
    simp [adjustBroadcastState, hp]
  · intro p hp
    cases hb : s.playing <;>
      simp [adjustBroadcastState, adjustSnapshotState, hb, hp]

/-- Witness for c9_reconciler: the snapshot adjustment at a concrete
playing state, a broadcast that is a seek event against sB, and a
broadcast against an unchanged previous state. -/
theorem c9_reconciler_witness :
    (adjustSnapshotState 5000 s9).pos
        = s9.pos + (if s9.playing then ((5000 : Rat) - (s9.ts.p : Rat)) / 1000 else 0)
    ∧ adjustBroadcastState 5000 (some sB) s9 = s9
    ∧ adjustBroadcastState 5000 (some s9) s9 = adjustSnapshotState 5000 s9 := by
  obtain ⟨h1, _, _, _, _, h6, h7⟩ := c9_reconciler 5000 0 s9
  refine ⟨h1, h6 sB ?_, h7 s9 ?_⟩
  · have hv : s9.pos - sB.pos = 5 := by norm_num [s9, sB]
    rw [hv, abs_of_pos (by norm_num)]
    norm_num
  · have hv : s9.pos - s9.pos = 0 := sub_self s9.pos
    rw [hv, abs_zero]
    norm_num

/-- Claim C10: after the close handler removes a session's only
subscriber, the session is evicted from both maps; a window timer firing
afterwards finds no subscriber set, so broadcast sends nothing, returns
normally and leaves the maps exactly as they were. -/
theorem c10_broadcast_after_eviction (st : ServerState) (sessionId : String)
    (ws : Nat) (m : OutMessage) (h : st.sessions sessionId = some [ws]) :
    (handleClose st ws).sessions sessionId = none
    ∧ (handleClose st ws).latestState sessionId = none
    ∧ broadcast (handleClose st ws) sessionId m = (handleClose st ws, []) := by
  have h1 : (handleClose st ws).sessions sessionId = none := by
    simp [handleClose, h]
  have h2 : (handleClose st ws).latestState sessionId = none := by
    simp [handleClose, h]
  refine ⟨h1, h2, ?_⟩
  unfold broadcast
  rw [h1]

/-- Witness for c10_broadcast_after_eviction on the demo server whose
only session has a single subscriber. -/
theorem c10_broadcast_after_eviction_witness :
    (handleClose stDemo 1).sessions "s" = none
    ∧ (handleClose stDemo 1).latestState "s" = none
    ∧ broadcast (handleClose stDemo 1) "s" mDemo = (handleClose stDemo 1, []) :=
  c10_broadcast_after_eviction stDemo "s" 1 mDemo (by decide)
